import Mathlib

/-!
Verification of the force-directed knowledge-graph viewer
(`src/components/KnowledgeGraphViewer.tsx` and its earlier variant
`src/unnamed/part_000`) against its natural-language specification.

The component's data model and the pure computations inside its hooks and
handlers are embedded shallowly: JavaScript numbers are modelled as real
numbers, JS objects keyed by node id as insertion-ordered association lists,
and JS `Set` values as `Finset String`.  Each definition carries a reference
to the source lines it embeds.
-/

namespace KGV

/-- Closed set of node categories, from the `NodeType` union in
`src/types.ts`. -/
inductive NodeType where
  | architecture
  | value
  | concept
  | goal
  | directive
  | tool
deriving DecidableEq, Repr

/-- Graph vertex, from `GraphNode` in `src/types.ts`.  The open-ended
`data` tooltip map is presentation-only and not modelled. -/
structure GraphNode where
  id : String
  label : String
  type : NodeType
deriving DecidableEq, Repr

/-- Directed edge, from `GraphEdge` in `src/types.ts`; `weight` is the
optional connection strength. -/
structure GraphEdge where
  id : String
  source : String
  target : String
  label : String
  weight : Option ℝ

/-- Aggregate graph value supplied by the host, from `KnowledgeGraph` in
`src/types.ts`. -/
structure KnowledgeGraph where
  nodes : List GraphNode
  edges : List GraphEdge

/-- Per-node kinetic state, from the `NodePosition` interface in
`KnowledgeGraphViewer.tsx` lines 4-10. -/
structure NodePosition where
  id : String
  x : ℝ
  y : ℝ
  vx : ℝ
  vy : ℝ

/-- The `positions` state object (`Record<string, NodePosition>`), modelled
as an insertion-ordered association list with unique keys, matching JS
object-property semantics. -/
abbrev PosMap : Type := List (String × NodePosition)

/-- Property read `positions[id]`: first entry with the given key. -/
def posLookup : PosMap → String → Option NodePosition
  | [], _ => none
  | (k, p) :: rest, id => if k = id then some p else posLookup rest id

/-- In-place property update `positions[id] = p` for a key already present:
replaces the stored record, preserving insertion order. -/
def posUpdate (ps : PosMap) (id : String) (p : NodePosition) : PosMap :=
  ps.map (fun kv => if kv.1 = id then (kv.1, p) else kv)

/-- JS object assignment `obj[id] = p`: overwrite when the key exists,
append (insertion order) when it does not. -/
def setKey (ps : PosMap) (id : String) (p : NodePosition) : PosMap :=
  if (posLookup ps id).isSome then posUpdate ps id p else ps ++ [(id, p)]

/-- The two view modes of the component (`'full' | 'ontology'`, line 62). -/
inductive ViewMode where
  | full
  | ontology
deriving DecidableEq, Repr

/-! ### Viewport transform (pan/zoom) -/

/-- Pan/zoom state `{ k, x, y }` from line 64 of
`KnowledgeGraphViewer.tsx`. -/
structure ViewTransform where
  k : ℝ
  x : ℝ
  y : ℝ

/-- Model-to-screen map realised by the rendered group
`translate(x, y) scale(k)` (line 317; also the tooltip anchor
`pos * k + translate` on line 392). -/
noncomputable def modelToScreen (p : ℝ × ℝ) (t : ViewTransform) : ℝ × ℝ :=
  (p.1 * t.k + t.x, p.2 * t.k + t.y)

/-- Inverse of `modelToScreen`, the `screenToModel` operation named by the
spec: `model = (screen - translate) / k`. -/
noncomputable def screenToModel (p : ℝ × ℝ) (t : ViewTransform) : ℝ × ℝ :=
  ((p.1 - t.x) / t.k, (p.2 - t.y) / t.k)

/-- Wheel-zoom update from `handleWheel`, lines 246-254: scale by 1.1 per
wheel direction, clamp the new scale to `[0.1, 5]`, and recompute the
translation so the cursor-relative offset scales by `newK / k`. -/
noncomputable def zoomAt (point : ℝ × ℝ) (deltaY : ℝ) (t : ViewTransform) :
    ViewTransform :=
  let zoomFactor : ℝ := 1.1
  let newScale : ℝ := if deltaY < 0 then t.k * zoomFactor else t.k / zoomFactor
  let newK : ℝ := max 0.1 (min 5 newScale)
  { k := newK
    x := point.1 - (point.1 - t.x) * (newK / t.k)
    y := point.2 - (point.2 - t.y) * (newK / t.k) }

theorem screenToModel_modelToScreen (p : ℝ × ℝ) (t : ViewTransform)
    (hk : t.k ≠ 0) : modelToScreen (screenToModel p t) t = p := by
  simp only [modelToScreen, screenToModel]
  ext <;> field_simp

theorem zoomAt_k_pos (point : ℝ × ℝ) (d : ℝ) (t : ViewTransform) :
    (0.1 : ℝ) ≤ (zoomAt point d t).k := by
  simp only [zoomAt]
  exact le_max_left _ _

/-- C1: zoom-toward-cursor invariant.  For every transform whose scale lies
in `[0.1, 5]` and every screen point `p`, the wheel-zoom operation at `p`
(new scale clamped to `[0.1, 5]`, translation recomputed as
`x' = p.x - (p.x - x) * k'/k` and similarly for `y`) leaves the model point
under the cursor unchanged: `screenToModel p` is equal before and after the
zoom — an exact equality, hence within the `1e-6` tolerance the claim
allows. -/
theorem zoomAt_cursor_invariant (t : ViewTransform) (p : ℝ × ℝ) (d : ℝ)
    (hk1 : (0.1 : ℝ) ≤ t.k) (hk2 : t.k ≤ 5) :
    screenToModel p (zoomAt p d t) = screenToModel p t ∧
    |(screenToModel p (zoomAt p d t)).1 - (screenToModel p t).1| ≤ 1 / 1000000 ∧
    |(screenToModel p (zoomAt p d t)).2 - (screenToModel p t).2| ≤ 1 / 1000000 := by
  have hk0 : t.k ≠ 0 := by intro h; rw [h] at hk1; norm_num at hk1
  have hKpos : (0.1 : ℝ) ≤ (zoomAt p d t).k := zoomAt_k_pos p d t
  have hK0 : (zoomAt p d t).k ≠ 0 := by intro h; rw [h] at hKpos; norm_num at hKpos
  have hmain : screenToModel p (zoomAt p d t) = screenToModel p t := by
    have hx : (zoomAt p d t).x = p.1 - (p.1 - t.x) * ((zoomAt p d t).k / t.k) := rfl
    have hy : (zoomAt p d t).y = p.2 - (p.2 - t.y) * ((zoomAt p d t).k / t.k) := rfl
    simp only [screenToModel, hx, hy]
    ext
    · simp only
      field_simp
      ring
    · simp only
      field_simp
      ring
  refine ⟨hmain, ?_, ?_⟩
  · rw [hmain]; norm_num
  · rw [hmain]; norm_num

/-- Witness for C1 at the spec's own example: `p = (100, 100)`, identity
transform `k = 1`, wheel delta `-1` (zoom in). -/
theorem zoomAt_cursor_invariant_witness :
    screenToModel ((100 : ℝ), (100 : ℝ)) (zoomAt (100, 100) (-1) ⟨1, 0, 0⟩) =
      screenToModel (100, 100) ⟨1, 0, 0⟩ :=
  (zoomAt_cursor_invariant ⟨1, 0, 0⟩ (100, 100) (-1) (by norm_num) (by norm_num)).1

/-! ### Association-list (JS object) lemmas -/

theorem posUpdate_cons (k : String) (q : NodePosition) (rest : PosMap)
    (id : String) (p : NodePosition) :
    posUpdate ((k, q) :: rest) id p =
      (if k = id then (k, p) else (k, q)) :: posUpdate rest id p := rfl

theorem posLookup_posUpdate_ne (ps : PosMap) (id id' : String)
    (p : NodePosition) (h : id ≠ id') :
    posLookup (posUpdate ps id p) id' = posLookup ps id' := by
  induction ps with
  | nil => rfl
  | cons kv rest ih =>
    obtain ⟨k, q⟩ := kv
    rw [posUpdate_cons]
    by_cases hk : k = id
    · rw [if_pos hk, posLookup, posLookup,
        if_neg (show ¬k = id' by rw [hk]; exact h),
        if_neg (show ¬k = id' by rw [hk]; exact h)]
      exact ih
    · rw [if_neg hk, posLookup, posLookup]
      by_cases hk' : k = id'
      · rw [if_pos hk', if_pos hk']
      · rw [if_neg hk', if_neg hk']
        exact ih

theorem posLookup_posUpdate_isSome (ps : PosMap) (id : String)
    (p : NodePosition) (h : (posLookup ps id).isSome) :
    posLookup (posUpdate ps id p) id = some p := by
  induction ps with
  | nil => simp [posLookup] at h
  | cons kv rest ih =>
    obtain ⟨k, q⟩ := kv
    rw [posUpdate_cons]
    by_cases hk : k = id
    · rw [if_pos hk, posLookup, if_pos hk]
    · rw [if_neg hk, posLookup, if_neg hk]
      rw [posLookup, if_neg hk] at h
      exact ih h

theorem posLookup_append (ps qs : PosMap) (id : String) :
    posLookup (ps ++ qs) id =
      match posLookup ps id with
      | some p => some p
      | none => posLookup qs id := by
  induction ps with
  | nil => simp [posLookup]
  | cons kv rest ih =>
    by_cases hk : kv.1 = id
    · simp [posLookup, if_pos hk]
    · simp only [List.cons_append, posLookup, if_neg hk]
      exact ih

theorem posLookup_setKey_self (ps : PosMap) (id : String) (p : NodePosition) :
    posLookup (setKey ps id p) id = some p := by
  unfold setKey
  by_cases h : (posLookup ps id).isSome
  · rw [if_pos h]
    exact posLookup_posUpdate_isSome ps id p h
  · rw [if_neg h, posLookup_append]
    rw [Option.not_isSome_iff_eq_none] at h
    rw [h]
    simp [posLookup]

theorem posLookup_setKey_ne (ps : PosMap) (id id' : String) (p : NodePosition)
    (h : id ≠ id') : posLookup (setKey ps id p) id' = posLookup ps id' := by
  unfold setKey
  by_cases hs : (posLookup ps id).isSome
  · rw [if_pos hs]
    exact posLookup_posUpdate_ne ps id id' p h
  · rw [if_neg hs, posLookup_append]
    cases hl : posLookup ps id' with
    | some q => simp
    | none => simp [posLookup, if_neg h]

/-! ### Graph-model reconciliation (node-seeding effect, lines 99-114;
earlier variant `src/unnamed/part_000` lines 29-45) -/

/-- Worker for `reconcile`: iterates `filteredGraph.nodes`, carrying the
stored kinetic state forward for known ids and seeding
`{ x: Math.random() * width, y: Math.random() * height, vx: 0, vy: 0 }` for
new ids.  The two `Math.random()` draws consumed by the `i`-th freshly
seeded node are supplied by the oracle `rand i`. -/
noncomputable def reconcileGo (prev : PosMap) (w h : ℝ) (rand : ℕ → ℝ × ℝ) :
    List GraphNode → PosMap → ℕ → PosMap
  | [], acc, _ => acc
  | n :: rest, acc, i =>
    match posLookup prev n.id with
    | some p => reconcileGo prev w h rand rest (setKey acc n.id p) i
    | none =>
      reconcileGo prev w h rand rest
        (setKey acc n.id ⟨n.id, (rand i).1 * w, (rand i).2 * h, 0, 0⟩) (i + 1)

/-- The node-seeding effect (lines 99-114): build a fresh `newPositions`
object from the new node list and the previous kinetic state. -/
noncomputable def reconcile (prev : PosMap) (nodes : List GraphNode)
    (w h : ℝ) (rand : ℕ → ℝ × ℝ) : PosMap :=
  reconcileGo prev w h rand nodes [] 0

theorem reconcileGo_lookup_notMem (prev : PosMap) (w h : ℝ)
    (rand : ℕ → ℝ × ℝ) (ns : List GraphNode) :
    ∀ (acc : PosMap) (i : ℕ) (id : String),
      id ∉ ns.map (fun n => n.id) →
      posLookup (reconcileGo prev w h rand ns acc i) id = posLookup acc id := by
  induction ns with
  | nil => intro acc i id _; rfl
  | cons n rest ih =>
    intro acc i id hid
    simp only [List.map_cons, List.mem_cons, not_or] at hid
    obtain ⟨hne, hrest⟩ := hid
    rw [reconcileGo]
    cases hp : posLookup prev n.id with
    | some p =>
      rw [ih _ _ _ hrest, posLookup_setKey_ne _ _ _ _ (fun e => hne e.symm)]
    | none =>
      rw [ih _ _ _ hrest, posLookup_setKey_ne _ _ _ _ (fun e => hne e.symm)]

theorem reconcileGo_lookup_carried (prev : PosMap) (w h : ℝ)
    (rand : ℕ → ℝ × ℝ) (ns : List GraphNode) :
    ∀ (acc : PosMap) (i : ℕ) (id : String) (p : NodePosition),
      posLookup prev id = some p →
      id ∈ ns.map (fun n => n.id) →
      posLookup (reconcileGo prev w h rand ns acc i) id = some p := by
  induction ns with
  | nil => intro _ _ _ _ _ hmem; simp at hmem
  | cons n rest ih =>
    intro acc i id p hprev hmem
    rw [reconcileGo]
    by_cases hh : n.id = id
    · subst hh
      rw [hprev]
      by_cases hr : n.id ∈ rest.map (fun m => m.id)
      · exact ih _ _ _ _ hprev hr
      · rw [reconcileGo_lookup_notMem _ _ _ _ _ _ _ _ hr,
          posLookup_setKey_self]
    · have hr : id ∈ rest.map (fun m => m.id) := by
        rw [List.map_cons] at hmem
        rcases List.mem_cons.mp hmem with h1 | h1
        · exact absurd h1.symm hh
        · exact h1
      cases hp : posLookup prev n.id with
      | some q => exact ih _ _ _ _ hprev hr
      | none => exact ih _ _ _ _ hprev hr

theorem reconcileGo_lookup_fresh (prev : PosMap) (w h : ℝ)
    (rand : ℕ → ℝ × ℝ) (ns : List GraphNode) :
    ∀ (acc : PosMap) (i : ℕ) (id : String),
      posLookup prev id = none →
      id ∈ ns.map (fun n => n.id) →
      ∃ j, posLookup (reconcileGo prev w h rand ns acc i) id =
        some ⟨id, (rand j).1 * w, (rand j).2 * h, 0, 0⟩ := by
  induction ns with
  | nil => intro _ _ _ _ hmem; simp at hmem
  | cons n rest ih =>
    intro acc i id hprev hmem
    rw [reconcileGo]
    by_cases hh : n.id = id
    · subst hh
      rw [hprev]
      by_cases hr : n.id ∈ rest.map (fun m => m.id)
      · exact ih _ _ _ hprev hr
      · refine ⟨i, ?_⟩
        rw [reconcileGo_lookup_notMem _ _ _ _ _ _ _ _ hr,
          posLookup_setKey_self]
    · have hr : id ∈ rest.map (fun m => m.id) := by
        rw [List.map_cons] at hmem
        rcases List.mem_cons.mp hmem with h1 | h1
        · exact absurd h1.symm hh
        · exact h1
      cases hp : posLookup prev n.id with
      | some q => exact ih _ _ _ hprev hr
      | none => exact ih _ _ _ hprev hr

/-- C2: determinism of reconciliation.  Reconciling a previous kinetic-state
map against a new node list (non-zero viewport, `Math.random` draws in
`[0, 1)`) yields a map whose key set is exactly the new node ids; ids
present before keep their whole kinetic record (position and velocity)
unchanged; dropped ids are absent; brand-new ids receive zero velocity and
a position inside `[0, width] × [0, height]`. -/
theorem reconcile_spec (prev : PosMap) (nodes : List GraphNode) (w h : ℝ)
    (rand : ℕ → ℝ × ℝ) (hw : 0 < w) (hh : 0 < h)
    (hr : ∀ i, 0 ≤ (rand i).1 ∧ (rand i).1 < 1 ∧
      0 ≤ (rand i).2 ∧ (rand i).2 < 1) :
    (∀ id, posLookup (reconcile prev nodes w h rand) id ≠ none ↔
        id ∈ nodes.map (fun n => n.id)) ∧
    (∀ id p, id ∈ nodes.map (fun n => n.id) → posLookup prev id = some p →
        posLookup (reconcile prev nodes w h rand) id = some p) ∧
    (∀ id, id ∈ nodes.map (fun n => n.id) → posLookup prev id = none →
        ∃ q, posLookup (reconcile prev nodes w h rand) id = some q ∧
          q.id = id ∧ q.vx = 0 ∧ q.vy = 0 ∧
          0 ≤ q.x ∧ q.x ≤ w ∧ 0 ≤ q.y ∧ q.y ≤ h) := by
  refine ⟨?_, ?_, ?_⟩
  · intro id
    constructor
    · intro hne
      by_contra hmem
      rw [reconcile, reconcileGo_lookup_notMem _ _ _ _ _ _ _ _ hmem] at hne
      exact hne rfl
    · intro hmem
      cases hp : posLookup prev id with
      | some p =>
        rw [reconcile, reconcileGo_lookup_carried _ _ _ _ _ _ _ _ _ hp hmem]
        simp
      | none =>
        obtain ⟨j, hj⟩ :=
          reconcileGo_lookup_fresh prev w h rand nodes [] 0 id hp hmem
        rw [reconcile, hj]
        simp
  · intro id p hmem hp
    exact reconcileGo_lookup_carried _ _ _ _ _ _ _ _ _ hp hmem
  · intro id hmem hp
    obtain ⟨j, hj⟩ :=
      reconcileGo_lookup_fresh prev w h rand nodes [] 0 id hp hmem
    refine ⟨_, hj, rfl, rfl, rfl, ?_, ?_, ?_, ?_⟩
    · exact mul_nonneg (hr j).1 (le_of_lt hw)
    · calc (rand j).1 * w ≤ 1 * w :=
            mul_le_mul_of_nonneg_right (le_of_lt (hr j).2.1) (le_of_lt hw)
        _ = w := one_mul w
    · exact mul_nonneg (hr j).2.2.1 (le_of_lt hh)
    · calc (rand j).2 * h ≤ 1 * h :=
            mul_le_mul_of_nonneg_right (le_of_lt (hr j).2.2.2) (le_of_lt hh)
        _ = h := one_mul h

/-- Witness for C2: previous state for node `a` only; new graph has nodes
`a` (carried over bit-for-bit) and `b` (freshly seeded inside the
`100 × 100` viewport with zero velocity). -/
theorem reconcile_spec_witness :
    posLookup (reconcile [("a", ⟨"a", 30, 40, 1, 2⟩)]
        [⟨"a", "A", NodeType.concept⟩, ⟨"b", "B", NodeType.goal⟩]
        100 100 (fun _ => (1 / 2, 1 / 2))) "a" = some ⟨"a", 30, 40, 1, 2⟩ ∧
    ∃ q, posLookup (reconcile [("a", ⟨"a", 30, 40, 1, 2⟩)]
        [⟨"a", "A", NodeType.concept⟩, ⟨"b", "B", NodeType.goal⟩]
        100 100 (fun _ => (1 / 2, 1 / 2))) "b" = some q ∧
      q.id = "b" ∧ q.vx = 0 ∧ q.vy = 0 ∧
      0 ≤ q.x ∧ q.x ≤ 100 ∧ 0 ≤ q.y ∧ q.y ≤ 100 := by
  have h := reconcile_spec [("a", ⟨"a", 30, 40, 1, 2⟩)]
    [⟨"a", "A", NodeType.concept⟩, ⟨"b", "B", NodeType.goal⟩]
    100 100 (fun _ => (1 / 2, 1 / 2)) (by norm_num) (by norm_num)
    (fun i => by norm_num)
  refine ⟨h.2.1 "a" ⟨"a", 30, 40, 1, 2⟩ (by simp) (by simp [posLookup]),
    h.2.2 "b" (by simp) (by simp [posLookup])⟩

/-! ### Force simulation (`updatePositions`, lines 156-203; earlier
variant `src/unnamed/part_000` lines 53-107 differs only in constants) -/

/-- JavaScript `v || 1` applied to the nonnegative result of `Math.sqrt`:
replaces (only) an exactly-zero value by 1. -/
noncomputable def jsOrOne (v : ℝ) : ℝ := if v = 0 then 1 else v

/-- Distance used as the repulsion divisor (line 175):
`Math.sqrt(dx*dx + dy*dy) || 1`. -/
noncomputable def repulsionDist (dx dy : ℝ) : ℝ :=
  jsOrOne (Real.sqrt (dx * dx + dy * dy))

/-- Inner repulsion loop (lines 171-179) for the node `aid` with
accumulated record `pa`.  The loop reads only the `x`/`y` fields of the
other nodes, and the pass mutates only `vx`/`vy`, so reading the other
nodes from the pre-pass map `m0` is faithful to the in-place JS loop. -/
noncomputable def repelFrom (m0 : PosMap) (aid : String)
    (nodes : List GraphNode) (pa : NodePosition) : NodePosition :=
  nodes.foldl (fun p nodeB =>
    if nodeB.id = aid then p
    else
      match posLookup m0 nodeB.id with
      | none => p
      | some pb =>
        let dx := pb.x - p.x
        let dy := pb.y - p.y
        let dist := repulsionDist dx dy
        let force := 800 / (dist * dist)
        { p with vx := p.vx - force * (dx / dist)
                 vy := p.vy - force * (dy / dist) }) pa

/-- Outer force loop (lines 166-180): per node, apply center gravity
(factor `0.02` toward `(cX, cY)`) then the pairwise repulsion sweep. -/
noncomputable def repulsionPass (nodes : List GraphNode) (cX cY : ℝ)
    (m0 : PosMap) : PosMap :=
  nodes.foldl (fun m nodeA =>
    match posLookup m nodeA.id with
    | none => m
    | some pa =>
      posUpdate m nodeA.id
        (repelFrom m0 nodeA.id nodes
          { pa with vx := pa.vx + (cX - pa.x) * 0.02
                    vy := pa.vy + (cY - pa.y) * 0.02 })) m0

/-- One edge of the spring-attraction loop (lines 182-192): skipped
entirely when either endpoint has no kinetic state. -/
noncomputable def edgeApply (m : PosMap) (e : GraphEdge) : PosMap :=
  match posLookup m e.source, posLookup m e.target with
  | some s, some t =>
    let dx := t.x - s.x
    let dy := t.y - s.y
    let m1 := posUpdate m e.source
      { s with vx := s.vx + dx * 0.03, vy := s.vy + dy * 0.03 }
    match posLookup m1 e.target with
    | some t1 =>
      posUpdate m1 e.target
        { t1 with vx := t1.vx - dx * 0.03, vy := t1.vy - dy * 0.03 }
    | none => m1
  | _, _ => m

/-- Edge-attraction pass: fold `edgeApply` over the edge list. -/
noncomputable def edgePass (edges : List GraphEdge) (m : PosMap) : PosMap :=
  edges.foldl edgeApply m

/-- Integration step (lines 194-201): damp velocity by `0.97`, advance the
position, and clamp it to `[10, width-10] × [10, height-10]`. -/
noncomputable def integrate (w h : ℝ) (p : NodePosition) : NodePosition :=
  { p with
    vx := p.vx * 0.97
    vy := p.vy * 0.97
    x := max 10 (min (w - 10) (p.x + p.vx * 0.97))
    y := max 10 (min (h - 10) (p.y + p.vy * 0.97)) }

/-- Integration applied to every stored record (`Object.values` loop). -/
noncomputable def integratePass (w h : ℝ) (m : PosMap) : PosMap :=
  m.map (fun kv => (kv.1, integrate w h kv.2))

/-- One full `updatePositions` tick (lines 156-203): early-out to the empty
map when there is no kinetic state or no node, else gravity+repulsion,
edge attraction, then damped, clamped integration. -/
noncomputable def stepPositions (g : KnowledgeGraph) (w h : ℝ)
    (m : PosMap) : PosMap :=
  if m.isEmpty || g.nodes.isEmpty then []
  else integratePass w h (edgePass g.edges (repulsionPass g.nodes (w / 2) (h / 2) m))

/-- Edges that actually render (lines 318-321): both endpoints must have
kinetic state, otherwise the edge renders as `null`. -/
def renderedEdges (g : KnowledgeGraph) (m : PosMap) : List GraphEdge :=
  g.edges.filter (fun e =>
    (posLookup m e.source).isSome && (posLookup m e.target).isSome)

/-- C4 counterexample: two nodes a horizontal distance `1/2` apart.  The
divisor actually used, `Math.sqrt(dx*dx+dy*dy) || 1`, evaluates to `1/2`,
which is strictly below 1 — so the divisor is not `max(|posB - posA|, 1)`
as the claim states, and the force `800 / distance²` exceeds the bound the
claim derives. -/
theorem repulsionDist_below_one :
    repulsionDist (1 / 2 : ℝ) 0 = 1 / 2 ∧ ¬(1 ≤ repulsionDist (1 / 2 : ℝ) 0) := by
  have hs : Real.sqrt ((1 / 2 : ℝ) * (1 / 2) + 0 * 0) = 1 / 2 := by
    rw [show ((1 : ℝ) / 2) * (1 / 2) + 0 * 0 = (1 / 2) ^ 2 by ring]
    exact Real.sqrt_sq (by norm_num)
  have h : repulsionDist (1 / 2 : ℝ) 0 = 1 / 2 := by
    unfold repulsionDist jsOrOne
    rw [hs]
    norm_num
  exact ⟨h, by rw [h]; norm_num⟩

/-- C4 amended: the repulsion divisor is `|posB - posA|` whenever the two
nodes are not coincident and `1` exactly at coincidence; it is always
strictly positive, so the force `800 / distance²` is finite and no
division by zero occurs — but it is not floored at 1. -/
theorem repulsionDist_spec (dx dy : ℝ) :
    0 < repulsionDist dx dy ∧
    (dx = 0 ∧ dy = 0 → repulsionDist dx dy = 1) ∧
    (¬(dx = 0 ∧ dy = 0) →
      repulsionDist dx dy = Real.sqrt (dx * dx + dy * dy)) := by
  refine ⟨?_, ?_, ?_⟩
  · unfold repulsionDist jsOrOne
    by_cases h : Real.sqrt (dx * dx + dy * dy) = 0
    · rw [if_pos h]; norm_num
    · rw [if_neg h]
      exact lt_of_le_of_ne (Real.sqrt_nonneg _) (Ne.symm h)
  · rintro ⟨h1, h2⟩
    subst h1; subst h2
    unfold repulsionDist jsOrOne
    norm_num
  · intro h
    have hpos : 0 < dx * dx + dy * dy := by
      rcases not_and_or.mp h with h1 | h1
      · have := mul_self_pos.mpr h1
        nlinarith [mul_self_nonneg dy]
      · have := mul_self_pos.mpr h1
        nlinarith [mul_self_nonneg dx]
    have hsq : Real.sqrt (dx * dx + dy * dy) ≠ 0 :=
      ne_of_gt (Real.sqrt_pos.mpr hpos)
    unfold repulsionDist jsOrOne
    rw [if_neg hsq]

/-- Witness for the amended C4 statement at coincident nodes (divisor 1)
and at displacement `(3, 4)` (divisor `√25`). -/
theorem repulsionDist_spec_witness :
    0 < repulsionDist (0 : ℝ) 0 ∧ repulsionDist (0 : ℝ) 0 = 1 ∧
    repulsionDist (3 : ℝ) 4 = Real.sqrt (3 * 3 + 4 * 4) :=
  ⟨(repulsionDist_spec 0 0).1, (repulsionDist_spec 0 0).2.1 ⟨rfl, rfl⟩,
    (repulsionDist_spec 3 4).2.2 (by norm_num)⟩

/-! ### Dangling-edge lemmas -/

theorem posLookup_posUpdate_of_none (ps : PosMap) (id : String)
    (p : NodePosition) (h : posLookup ps id = none) :
    posLookup (posUpdate ps id p) id = none := by
  induction ps with
  | nil => rfl
  | cons kv rest ih =>
    obtain ⟨k, q⟩ := kv
    rw [posLookup] at h
    by_cases hk : k = id
    · rw [if_pos hk] at h; cases h
    · rw [if_neg hk] at h
      rw [posUpdate_cons, if_neg hk, posLookup, if_neg hk]
      exact ih h

theorem posLookup_posUpdate_none_iff (ps : PosMap) (id id' : String)
    (p : NodePosition) :
    posLookup (posUpdate ps id p) id' = none ↔ posLookup ps id' = none := by
  by_cases h : id = id'
  · subst h
    by_cases hs : (posLookup ps id).isSome
    · rw [posLookup_posUpdate_isSome ps id p hs]
      constructor
      · intro hc; cases hc
      · intro hc; rw [hc] at hs; cases hs
    · rw [Option.not_isSome_iff_eq_none] at hs
      rw [hs, posLookup_posUpdate_of_none ps id p hs]
  · rw [posLookup_posUpdate_ne ps id id' p h]

theorem edgeApply_dangling (m : PosMap) (e : GraphEdge)
    (hd : posLookup m e.source = none ∨ posLookup m e.target = none) :
    edgeApply m e = m := by
  rcases hd with h | h
  · simp only [edgeApply, h]
  · cases hs : posLookup m e.source with
    | none => simp only [edgeApply, hs]
    | some s => simp only [edgeApply, hs, h]

theorem edgeApply_lookup_none (m : PosMap) (e : GraphEdge) (id : String) :
    posLookup (edgeApply m e) id = none ↔ posLookup m id = none := by
  cases hs : posLookup m e.source with
  | none => simp only [edgeApply, hs]
  | some s =>
    cases ht : posLookup m e.target with
    | none => simp only [edgeApply, hs, ht]
    | some t =>
      simp only [edgeApply, hs, ht]
      cases ht1 : posLookup (posUpdate m e.source
          { s with vx := s.vx + (t.x - s.x) * 0.03,
                   vy := s.vy + (t.y - s.y) * 0.03 }) e.target with
      | none =>
        simp only
        rw [posLookup_posUpdate_none_iff]
      | some t1 =>
        simp only
        rw [posLookup_posUpdate_none_iff, posLookup_posUpdate_none_iff]

theorem edgePass_lookup_none (es : List GraphEdge) :
    ∀ (m : PosMap) (id : String),
      posLookup (edgePass es m) id = none ↔ posLookup m id = none := by
  induction es with
  | nil => intro m id; rfl
  | cons e rest ih =>
    intro m id
    show posLookup (edgePass rest (edgeApply m e)) id = none ↔ _
    rw [ih, edgeApply_lookup_none]

theorem edgePass_skip (e : GraphEdge) :
    ∀ (es₁ : List GraphEdge) (m : PosMap),
      (posLookup m e.source = none ∨ posLookup m e.target = none) →
      ∀ es₂, edgePass (es₁ ++ e :: es₂) m = edgePass (es₁ ++ es₂) m := by
  intro es₁
  induction es₁ with
  | nil =>
    intro m hd es₂
    show edgePass es₂ (edgeApply m e) = edgePass es₂ m
    rw [edgeApply_dangling m e hd]
  | cons f fs ih =>
    intro m hd es₂
    show edgePass (fs ++ e :: es₂) (edgeApply m f) =
      edgePass (fs ++ es₂) (edgeApply m f)
    refine ih (edgeApply m f) ?_ es₂
    rcases hd with h | h
    · exact Or.inl ((edgeApply_lookup_none m f e.source).mpr h)
    · exact Or.inr ((edgeApply_lookup_none m f e.target).mpr h)

/-- C6: dangling-edge safety.  An edge with a missing endpoint is a no-op
for the edge-attraction pass (dropping it from any position in the edge
list leaves the pass's result unchanged, and applying it alone changes no
kinetic state), it is absent from the rendered edge list, and every edge
with both endpoints present is rendered. -/
theorem dangling_edge_spec (m : PosMap) (e : GraphEdge)
    (hd : posLookup m e.source = none ∨ posLookup m e.target = none) :
    edgeApply m e = m ∧
    (∀ es₁ es₂, edgePass (es₁ ++ e :: es₂) m = edgePass (es₁ ++ es₂) m) ∧
    (∀ g : KnowledgeGraph, e ∉ renderedEdges g m) ∧
    (∀ (g : KnowledgeGraph) (e' : GraphEdge), e' ∈ g.edges →
      (posLookup m e'.source).isSome → (posLookup m e'.target).isSome →
      e' ∈ renderedEdges g m) := by
  refine ⟨edgeApply_dangling m e hd, fun es₁ es₂ => edgePass_skip e es₁ m hd es₂,
    ?_, ?_⟩
  · intro g hmem
    rw [renderedEdges, List.mem_filter] at hmem
    rcases hd with h | h
    · rw [h] at hmem
      simp at hmem
    · rw [h] at hmem
      simp at hmem
  · intro g e' hmem hs ht
    rw [renderedEdges, List.mem_filter]
    exact ⟨hmem, by rw [hs, ht]; rfl⟩

/-- Witness for C6: one node `A` and the edge `A → missing`, as in the
spec's test sketch. -/
theorem dangling_edge_spec_witness :
    edgeApply [("A", ⟨"A", 50, 50, 0, 0⟩)] ⟨"e1", "A", "missing", "rel", none⟩ =
      [("A", ⟨"A", 50, 50, 0, 0⟩)] ∧
    (⟨"e1", "A", "missing", "rel", none⟩ : GraphEdge) ∉
      renderedEdges ⟨[⟨"A", "A", NodeType.concept⟩],
        [⟨"e1", "A", "missing", "rel", none⟩]⟩ [("A", ⟨"A", 50, 50, 0, 0⟩)] := by
  have hd : posLookup [("A", (⟨"A", 50, 50, 0, 0⟩ : NodePosition))] "missing" = none := by
    rw [posLookup, if_neg (by decide)]
    rfl
  have h := dangling_edge_spec [("A", ⟨"A", 50, 50, 0, 0⟩)]
    ⟨"e1", "A", "missing", "rel", none⟩ (Or.inr hd)
  exact ⟨h.1, h.2.2.1 _⟩

/-! ### Bounded-position invariant -/

theorem stepPositions_single_bounds (g : KnowledgeGraph) (w h : ℝ)
    (hw : 20 ≤ w) (hh : 20 ≤ h) (m : PosMap) :
    ∀ kp ∈ stepPositions g w h m,
      10 ≤ kp.2.x ∧ kp.2.x ≤ w - 10 ∧ 10 ≤ kp.2.y ∧ kp.2.y ≤ h - 10 := by
  intro kp hkp
  unfold stepPositions at hkp
  split at hkp
  · simp at hkp
  · unfold integratePass at hkp
    rw [List.mem_map] at hkp
    obtain ⟨kv, _, rfl⟩ := hkp
    refine ⟨?_, ?_, ?_, ?_⟩
    · show (10 : ℝ) ≤ max 10 (min (w - 10) (kv.2.x + kv.2.vx * 0.97))
      exact le_max_left _ _
    · show max 10 (min (w - 10) (kv.2.x + kv.2.vx * 0.97)) ≤ w - 10
      exact max_le (by linarith) (min_le_left _ _)
    · show (10 : ℝ) ≤ max 10 (min (h - 10) (kv.2.y + kv.2.vy * 0.97))
      exact le_max_left _ _
    · show max 10 (min (h - 10) (kv.2.y + kv.2.vy * 0.97)) ≤ h - 10
      exact max_le (by linarith) (min_le_left _ _)

/-- C7: bounded-position invariant.  For any viewport at least `20 × 20`,
after any positive number of simulation ticks every stored position lies
in `[10, width-10] × [10, height-10]`; in particular, on a `500 × 500`
viewport every coordinate has absolute value below 2000. -/
theorem stepPositions_bounds (g : KnowledgeGraph) (w h : ℝ)
    (hw : 20 ≤ w) (hh : 20 ≤ h) (m : PosMap) (n : ℕ) (hn : 1 ≤ n) :
    ∀ kp ∈ (stepPositions g w h)^[n] m,
      10 ≤ kp.2.x ∧ kp.2.x ≤ w - 10 ∧ 10 ≤ kp.2.y ∧ kp.2.y ≤ h - 10 ∧
      (w = 500 → h = 500 → |kp.2.x| < 2000 ∧ |kp.2.y| < 2000) := by
  obtain ⟨k, rfl⟩ : ∃ k, n = k + 1 := ⟨n - 1, by omega⟩
  intro kp hkp
  rw [Function.iterate_succ_apply'] at hkp
  obtain ⟨h1, h2, h3, h4⟩ :=
    stepPositions_single_bounds g w h hw hh _ kp hkp
  refine ⟨h1, h2, h3, h4, ?_⟩
  rintro rfl rfl
  constructor
  · rw [abs_lt]; constructor <;> linarith
  · rw [abs_lt]; constructor <;> linarith

/-- Witness for C7 at a concrete instance: one node at `(100, 100)` on a
`500 × 500` viewport; after one tick its stored record (whose kinetic
update evaluates definitionally) satisfies all the clamp bounds. -/
theorem stepPositions_bounds_witness :
    10 ≤ (integrate 500 500 ⟨"a", 100, 100, 0 + (500 / 2 - 100) * 0.02,
        0 + (500 / 2 - 100) * 0.02⟩).x ∧
    (integrate 500 500 ⟨"a", 100, 100, 0 + (500 / 2 - 100) * 0.02,
        0 + (500 / 2 - 100) * 0.02⟩).x ≤ 500 - 10 ∧
    10 ≤ (integrate 500 500 ⟨"a", 100, 100, 0 + (500 / 2 - 100) * 0.02,
        0 + (500 / 2 - 100) * 0.02⟩).y ∧
    (integrate 500 500 ⟨"a", 100, 100, 0 + (500 / 2 - 100) * 0.02,
        0 + (500 / 2 - 100) * 0.02⟩).y ≤ 500 - 10 ∧
    ((500 : ℝ) = 500 → (500 : ℝ) = 500 →
      |(integrate 500 500 ⟨"a", 100, 100, 0 + (500 / 2 - 100) * 0.02,
          0 + (500 / 2 - 100) * 0.02⟩).x| < 2000 ∧
      |(integrate 500 500 ⟨"a", 100, 100, 0 + (500 / 2 - 100) * 0.02,
          0 + (500 / 2 - 100) * 0.02⟩).y| < 2000) := by
  have hstep : stepPositions ⟨[⟨"a", "A", NodeType.concept⟩], []⟩ 500 500
      [("a", ⟨"a", 100, 100, 0, 0⟩)] =
      [("a", integrate 500 500 ⟨"a", 100, 100, 0 + (500 / 2 - 100) * 0.02,
        0 + (500 / 2 - 100) * 0.02⟩)] := rfl
  have hmem : (("a", integrate 500 500
      ⟨"a", 100, 100, 0 + (500 / 2 - 100) * 0.02,
        0 + (500 / 2 - 100) * 0.02⟩) : String × NodePosition) ∈
      (stepPositions ⟨[⟨"a", "A", NodeType.concept⟩], []⟩ 500 500)^[1]
        [("a", ⟨"a", 100, 100, 0, 0⟩)] := by
    rw [Function.iterate_one, hstep]
    exact List.mem_singleton.mpr rfl
  exact stepPositions_bounds ⟨[⟨"a", "A", NodeType.concept⟩], []⟩ 500 500
    (by norm_num) (by norm_num) [("a", ⟨"a", 100, 100, 0, 0⟩)] 1
    (by norm_num) _ hmem

/-! ### Value-ontology importance lookup and radial layout
(lines 123-150) -/

/-- JavaScript `String.prototype.toLowerCase()`: lower-case the string
character by character. -/
def jsToLower (s : String) : String := ⟨s.data.map Char.toLower⟩

/-- JavaScript `String.prototype.trim()`: strip whitespace from both
ends. -/
def jsTrim (s : String) : String :=
  ⟨((s.data.dropWhile Char.isWhitespace).reverse.dropWhile
      Char.isWhitespace).reverse⟩

/-- Record lookup `valueOntology[key]` on the importance map. -/
def voLookup : List (String × ℝ) → String → Option ℝ
  | [], _ => none
  | (k, v) :: rest, key => if k = key then some v else voLookup rest key

/-- The case-insensitive key search
`Object.keys(valueOntology).find(k => k.toLowerCase() === label.toLowerCase())`
(lines 138, 230, 381). -/
def ciFind (vo : List (String × ℝ)) (lbl : String) : Option String :=
  (vo.map (fun kv => kv.1)).find? (fun k => jsToLower k == jsToLower lbl)

/-- Importance score for a node label (lines 138 and 230):
`valueOntology[label] ?? valueOntology[ciFind ?? ''] ?? 0.5`. -/
noncomputable def lookupScore (vo : List (String × ℝ)) (lbl : String) : ℝ :=
  match voLookup vo lbl with
  | some v => v
  | none =>
    match voLookup vo ((ciFind vo lbl).getD "") with
    | some v => v
    | none => 0.5

/-- The value nodes selected by the ontology-layout effect (line 128). -/
def ontoValueNodes (fg : KnowledgeGraph) : List GraphNode :=
  fg.nodes.filter (fun n => n.type == NodeType.value)

/-- The `valueNodes.forEach((node, index) => ...)` loop of lines 137-148:
place each value node on the circle of radius
`maxRadius * (1.1 - valueScore)` at angle `angleStep * index`. -/
noncomputable def placeValueNodes (vo : List (String × ℝ))
    (w h angleStep maxRadius : ℝ) :
    List GraphNode → ℕ → PosMap → PosMap
  | [], _, acc => acc
  | n :: rest, i, acc =>
    let valueScore := lookupScore vo n.label
    let radius := maxRadius * (1.1 - valueScore)
    let angle := angleStep * (i : ℝ)
    placeValueNodes vo w h angleStep maxRadius rest (i + 1)
      (setKey acc n.id
        ⟨n.id, w / 2 + radius * Real.cos angle,
          h / 2 + radius * Real.sin angle, 0, 0⟩)

/-- Radial/ontology placement (the `view === 'ontology'` branch of the
layout effect, lines 126-149): central node at the viewport centre, then
the indexed value-node loop with
`angleStep = 2π / (valueNodes.length || 1)` and
`maxRadius = min(width, height) / 2.5`. -/
noncomputable def ontologyLayout (fg : KnowledgeGraph)
    (vo : List (String × ℝ)) (w h : ℝ) : PosMap :=
  let base : PosMap :=
    match fg.nodes.find? (fun n => n.id == "luminous") with
    | some c => [(c.id, ⟨c.id, w / 2, h / 2, 0, 0⟩)]
    | none => []
  let valueNodes := ontoValueNodes fg
  let angleStep := (2 * Real.pi) /
    (if valueNodes.length = 0 then 1 else (valueNodes.length : ℝ))
  let maxRadius := min w h / 2.5
  placeValueNodes vo w h angleStep maxRadius valueNodes 0 base

/-! ### Ontology-view graph filter (`filteredGraph` useMemo, lines 69-90) -/

/-- The `filteredGraph` useMemo: the full view passes the graph through;
the ontology view requires the node with id `'luminous'`, keeps the
value-typed nodes whose lowercased label is among the lowercased keys of
the importance map, and keeps the edges from the central node to one of
those value nodes. -/
def filteredGraph (view : ViewMode) (g : KnowledgeGraph)
    (vo : List (String × ℝ)) : KnowledgeGraph :=
  match view with
  | ViewMode.full => g
  | ViewMode.ontology =>
    match g.nodes.find? (fun n => n.id == "luminous") with
    | none => ⟨[], []⟩
    | some centralNode =>
      let valueOntologyLabels := (vo.map (fun kv => kv.1)).map jsToLower
      let valueNodes := g.nodes.filter (fun n =>
        n.type == NodeType.value &&
          valueOntologyLabels.contains (jsToLower n.label))
      let valueNodeIds := valueNodes.map (fun n => n.id)
      let ontologyEdges := g.edges.filter (fun e =>
        e.source == centralNode.id && valueNodeIds.contains e.target)
      ⟨centralNode :: valueNodes, ontologyEdges⟩

/-! ### Search highlighting and visual state (lines 211-235, 318-358) -/

/-- Result of the `highlightedNodeIds`/`highlightedEdgeIds` useMemo
(lines 211-226), as the JS runtime evaluates it.  The guard path
(empty trimmed query or ontology view) returns two empty sets.  On the
other path the function body computes candidate sets
(`matchingNodeIds`/`matchingEdgeIds`, lines 215-224) but its `return`
statement instead reads `highlightedNodeIds`/`highlightedEdgeIds` — the
very `const` bindings this useMemo initialises, still inside their
temporal dead zone — so evaluation throws a `ReferenceError` and the
candidate sets are discarded. -/
def highlightMemo (searchTerm : String) (view : ViewMode)
    (g : KnowledgeGraph) : Except String (Finset String × Finset String) :=
  if jsTrim searchTerm = "" ∨ view = ViewMode.ontology then
    Except.ok (∅, ∅)
  else
    Except.error "ReferenceError"

/-- Node dimming flag (line 358):
`searchTerm.trim() && !highlightedNodeIds.has(node.id)`. -/
def isDimmedNode (searchTerm : String) (hl : Finset String)
    (id : String) : Bool :=
  !(jsTrim searchTerm == "") && decide (id ∉ hl)

/-- Edge dimming flag (line 322):
`searchTerm.trim() && !highlightedEdgeIds.has(edge.id)`. -/
def isDimmedEdge (searchTerm : String) (hl : Finset String)
    (id : String) : Bool :=
  !(jsTrim searchTerm == "") && decide (id ∉ hl)

/-- Rendered node radius (`getNodeRadius`, lines 228-235): ontology-view
value nodes use `6 + valueScore * 10`; otherwise highlighted nodes get
radius 10 and all others the default 7. -/
noncomputable def getNodeRadius (view : ViewMode) (vo : List (String × ℝ))
    (hl : Finset String) (n : GraphNode) : ℝ :=
  if view = ViewMode.ontology ∧ n.type = NodeType.value then
    6 + lookupScore vo n.label * 10
  else if n.id ∈ hl then 10 else 7

/-- Rendered edge stroke width (line 329): `0.5 + (edge.weight || 0.5)` —
a missing or exactly-zero weight falls back to `0.5`; every other value,
negative included, is used as-is. -/
noncomputable def edgeStrokeWidth (e : GraphEdge) : ℝ :=
  0.5 + (match e.weight with
         | none => 0.5
         | some wt => if wt = 0 then 0.5 else wt)

/-! ### Radial-layout lemmas -/

theorem posLookup_setKey_cases (ps : PosMap) (id : String) (q : NodePosition)
    (id' : String) (p : NodePosition)
    (h : posLookup (setKey ps id q) id' = some p) :
    p = q ∨ posLookup ps id' = some p := by
  by_cases hid : id = id'
  · subst hid
    rw [posLookup_setKey_self] at h
    exact Or.inl (Option.some.inj h).symm
  · rw [posLookup_setKey_ne _ _ _ _ hid] at h
    exact Or.inr h

theorem placeValueNodes_lookup_notMem (vo : List (String × ℝ))
    (w h aS mR : ℝ) (ns : List GraphNode) :
    ∀ (i : ℕ) (acc : PosMap) (id : String),
      id ∉ ns.map (fun n => n.id) →
      posLookup (placeValueNodes vo w h aS mR ns i acc) id =
        posLookup acc id := by
  induction ns with
  | nil => intro i acc id _; rfl
  | cons n rest ih =>
    intro i acc id hid
    simp only [List.map_cons, List.mem_cons, not_or] at hid
    obtain ⟨hne, hrest⟩ := hid
    simp only [placeValueNodes]
    rw [ih _ _ _ hrest, posLookup_setKey_ne _ _ _ _ (fun e => hne e.symm)]

theorem placeValueNodes_lookup_get (vo : List (String × ℝ))
    (w h aS mR : ℝ) (ns : List GraphNode) :
    ∀ (i : ℕ) (acc : PosMap),
      (ns.map (fun n => n.id)).Nodup →
      ∀ (j : ℕ) (n : GraphNode), ns.get? j = some n →
      posLookup (placeValueNodes vo w h aS mR ns i acc) n.id =
        some ⟨n.id,
          w / 2 + mR * (1.1 - lookupScore vo n.label) *
            Real.cos (aS * ((i + j : ℕ) : ℝ)),
          h / 2 + mR * (1.1 - lookupScore vo n.label) *
            Real.sin (aS * ((i + j : ℕ) : ℝ)),
          0, 0⟩ := by
  induction ns with
  | nil => intro i acc _ j n hj; simp at hj
  | cons hd rest ih =>
    intro i acc hnd j n hj
    rw [List.map_cons, List.nodup_cons] at hnd
    simp only [placeValueNodes]
    cases j with
    | zero =>
      rw [List.get?_cons_zero] at hj
      obtain rfl : hd = n := Option.some.inj hj
      rw [placeValueNodes_lookup_notMem vo w h aS mR rest (i + 1) _ hd.id hnd.1,
        posLookup_setKey_self]
      have hcast : ((i + 0 : ℕ) : ℝ) = (i : ℝ) := by norm_num
      rw [hcast]
    | succ j' =>
      rw [List.get?_cons_succ] at hj
      rw [ih (i + 1) _ hnd.2 j' n hj]
      have hcast : (i + 1) + j' = i + (j' + 1) := by omega
      rw [hcast]

theorem placeValueNodes_vel_zero (vo : List (String × ℝ))
    (w h aS mR : ℝ) (ns : List GraphNode) :
    ∀ (i : ℕ) (acc : PosMap),
      (∀ id p, posLookup acc id = some p → p.vx = 0 ∧ p.vy = 0) →
      ∀ id p,
        posLookup (placeValueNodes vo w h aS mR ns i acc) id = some p →
        p.vx = 0 ∧ p.vy = 0 := by
  induction ns with
  | nil => intro i acc hacc id p hp; exact hacc id p hp
  | cons n rest ih =>
    intro i acc hacc id p hp
    simp only [placeValueNodes] at hp
    refine ih (i + 1) _ ?_ id p hp
    intro id' p' hp'
    rcases posLookup_setKey_cases _ _ _ _ _ hp' with h1 | h1
    · rw [h1]; exact ⟨rfl, rfl⟩
    · exact hacc id' p' h1

theorem voLookup_mem (vo : List (String × ℝ)) (lbl : String) (v : ℝ)
    (h : voLookup vo lbl = some v) : lbl ∈ vo.map (fun kv => kv.1) := by
  induction vo with
  | nil => cases h
  | cons kv rest ih =>
    obtain ⟨k, v'⟩ := kv
    rw [voLookup] at h
    by_cases hk : k = lbl
    · rw [List.map_cons, List.mem_cons]
      exact Or.inl hk.symm
    · rw [if_neg hk] at h
      rw [List.map_cons, List.mem_cons]
      exact Or.inr (ih h)

theorem ciFind_none_voLookup (vo : List (String × ℝ)) (lbl : String)
    (h : ciFind vo lbl = none) : voLookup vo lbl = none := by
  cases hv : voLookup vo lbl with
  | none => rfl
  | some v =>
    have hmem := voLookup_mem vo lbl v hv
    rw [ciFind, List.find?_eq_none] at h
    exact absurd (by simp : (jsToLower lbl == jsToLower lbl) = true)
      (h lbl hmem)

theorem lookupScore_default (vo : List (String × ℝ)) (lbl : String)
    (h1 : ciFind vo lbl = none) (h2 : voLookup vo "" = none) :
    lookupScore vo lbl = 0.5 := by
  unfold lookupScore
  rw [ciFind_none_voLookup vo lbl h1, h1]
  simp only [Option.getD_none, h2]

/-- C5 counterexample: when the central node itself has type `'value'`
(and its label matches an importance key), the indexed value-node loop
overwrites the centre placement, so the node with id `'luminous'` does not
sit at `(width/2, height/2)`: on a `100 × 100` viewport with importance
`0.9` it lands at `x = 58 ≠ 50`. -/
theorem ontologyLayout_central_overwritten :
    posLookup (ontologyLayout
        ⟨[⟨"luminous", "care", NodeType.value⟩], []⟩
        [("care", (0.9 : ℝ))] 100 100) "luminous" =
      some ⟨"luminous", 58, 50, 0, 0⟩ ∧
    (58 : ℝ) ≠ 100 / 2 := by
  have hvn : ontoValueNodes ⟨[⟨"luminous", "care", NodeType.value⟩], []⟩ =
      [⟨"luminous", "care", NodeType.value⟩] := rfl
  have hfind : (⟨[⟨"luminous", "care", NodeType.value⟩], []⟩ :
      KnowledgeGraph).nodes.find? (fun n => n.id == "luminous") =
      some ⟨"luminous", "care", NodeType.value⟩ := rfl
  have hsc : lookupScore [("care", (0.9 : ℝ))] "care" = 0.9 := by
    unfold lookupScore
    rw [voLookup, if_pos rfl]
  constructor
  · simp only [ontologyLayout, hvn, hfind, List.length_cons, List.length_nil]
    simp only [placeValueNodes, hsc]
    rw [posLookup_setKey_self]
    norm_num [Real.cos_zero, Real.sin_zero]
  · norm_num

/-- C5 amended: radial placement is a pure function of its inputs;
provided no value-typed node carries the central id `'luminous'` (the
counterexample shows a value-typed central node is overwritten by the
radial rule) and value-node ids are distinct, the central node sits at
`(width/2, height/2)`, the `j`-th value node sits on the circle of radius
`min(width,height) * 0.4 * (1.1 - importance)` at angle `2πj/count`, every
placed velocity is zero, and the importance defaults to `0.5` when the
label matches no key case-insensitively (and the map has no empty key). -/
theorem ontologyLayout_spec (fg : KnowledgeGraph) (vo : List (String × ℝ))
    (w h : ℝ)
    (hnl : ∀ n ∈ ontoValueNodes fg, n.id ≠ "luminous")
    (hnd : ((ontoValueNodes fg).map (fun n => n.id)).Nodup) :
    (∀ c, fg.nodes.find? (fun n => n.id == "luminous") = some c →
      posLookup (ontologyLayout fg vo w h) "luminous" =
        some ⟨c.id, w / 2, h / 2, 0, 0⟩) ∧
    (∀ j n, (ontoValueNodes fg).get? j = some n →
      posLookup (ontologyLayout fg vo w h) n.id =
        some ⟨n.id,
          w / 2 + (min w h * 0.4) * (1.1 - lookupScore vo n.label) *
            Real.cos (2 * Real.pi * (j : ℝ) / ((ontoValueNodes fg).length : ℝ)),
          h / 2 + (min w h * 0.4) * (1.1 - lookupScore vo n.label) *
            Real.sin (2 * Real.pi * (j : ℝ) / ((ontoValueNodes fg).length : ℝ)),
          0, 0⟩) ∧
    (∀ id p, posLookup (ontologyLayout fg vo w h) id = some p →
      p.vx = 0 ∧ p.vy = 0) ∧
    (∀ lbl, ciFind vo lbl = none → voLookup vo "" = none →
      lookupScore vo lbl = 0.5) := by
  have hnotmem : "luminous" ∉ (ontoValueNodes fg).map (fun n => n.id) := by
    intro hmem
    rw [List.mem_map] at hmem
    obtain ⟨n, hn, hid⟩ := hmem
    exact hnl n hn hid
  refine ⟨?_, ?_, ?_, fun lbl h1 h2 => lookupScore_default vo lbl h1 h2⟩
  · intro c hc
    have hcid : c.id = "luminous" := by
      have := List.find?_some hc
      simpa using this
    simp only [ontologyLayout, hc]
    rw [placeValueNodes_lookup_notMem _ _ _ _ _ _ _ _ _ hnotmem,
      posLookup, if_pos hcid]
  · intro j n hj
    obtain ⟨hlt, -⟩ := List.get?_eq_some.mp hj
    have hlen0 : (ontoValueNodes fg).length ≠ 0 := by omega
    simp only [ontologyLayout]
    rw [placeValueNodes_lookup_get vo w h _ _ (ontoValueNodes fg) 0 _ hnd j n hj]
    have hcast : ((0 + j : ℕ) : ℝ) = (j : ℝ) := by norm_num
    rw [hcast, if_neg hlen0]
    have harg : 2 * Real.pi / ((ontoValueNodes fg).length : ℝ) * (j : ℝ) =
        2 * Real.pi * (j : ℝ) / ((ontoValueNodes fg).length : ℝ) := by ring
    rw [harg]
    have hmr : min w h / 2.5 = min w h * 0.4 := by
      rw [div_eq_mul_inv]; norm_num
    rw [hmr]
  · intro id p hp
    simp only [ontologyLayout] at hp
    refine placeValueNodes_vel_zero _ _ _ _ _ _ _ _ ?_ id p hp
    intro id' p' hp'
    cases hfind : fg.nodes.find? (fun n => n.id == "luminous") with
    | none => rw [hfind] at hp'; cases hp'
    | some c =>
      rw [hfind] at hp'
      rw [posLookup] at hp'
      by_cases hcid : c.id = id'
      · rw [if_pos hcid] at hp'
        rw [← (Option.some.inj hp')]
        exact ⟨rfl, rfl⟩
      · rw [if_neg hcid] at hp'
        cases hp'

/-- Witness for the amended C5 statement: a concept-typed central node and
one value node with importance `0.9` on a `100 × 100` viewport. -/
theorem ontologyLayout_spec_witness :
    posLookup (ontologyLayout
        ⟨[⟨"luminous", "Luminous", NodeType.concept⟩,
          ⟨"n1", "care", NodeType.value⟩], []⟩
        [("care", (0.9 : ℝ))] 100 100) "luminous" =
      some ⟨"luminous", 100 / 2, 100 / 2, 0, 0⟩ := by
  have h := ontologyLayout_spec
    ⟨[⟨"luminous", "Luminous", NodeType.concept⟩,
      ⟨"n1", "care", NodeType.value⟩], []⟩
    [("care", (0.9 : ℝ))] 100 100
    (by
      intro n hn
      have hvn : ontoValueNodes
          ⟨[⟨"luminous", "Luminous", NodeType.concept⟩,
            ⟨"n1", "care", NodeType.value⟩], []⟩ =
          [⟨"n1", "care", NodeType.value⟩] := rfl
      rw [hvn, List.mem_singleton] at hn
      rw [hn]
      decide)
    (by decide)
  exact h.1 ⟨"luminous", "Luminous", NodeType.concept⟩ rfl

/-! ### Ontology-filter characterisation -/

theorem valueNodes_filter_mem (g : KnowledgeGraph) (vo : List (String × ℝ))
    (n : GraphNode) :
    n ∈ g.nodes.filter (fun n => n.type == NodeType.value &&
        ((vo.map (fun kv => kv.1)).map jsToLower).contains (jsToLower n.label)) ↔
      (n ∈ g.nodes ∧ n.type = NodeType.value ∧
        ∃ k ∈ vo.map (fun kv => kv.1), jsToLower k = jsToLower n.label) := by
  rw [List.mem_filter]
  constructor
  · rintro ⟨hmem, hpred⟩
    rw [Bool.and_eq_true, beq_iff_eq, List.elem_iff, List.mem_map] at hpred
    obtain ⟨ht, k, hk, hkeq⟩ := hpred
    exact ⟨hmem, ht, k, hk, hkeq⟩
  · rintro ⟨hmem, ht, k, hk, hkeq⟩
    refine ⟨hmem, ?_⟩
    rw [Bool.and_eq_true, beq_iff_eq, List.elem_iff, List.mem_map]
    exact ⟨ht, k, hk, hkeq⟩

/-- C9: the ontology-view filter.  Without a node of id `'luminous'` it
returns the empty graph (nothing renders); with a central node it keeps
exactly the central node, the value-typed nodes whose label matches a key
of the importance map case-insensitively, and exactly the edges from the
central node's id to the id of one of those value nodes. -/
theorem filteredGraph_ontology_spec (g : KnowledgeGraph)
    (vo : List (String × ℝ)) :
    ((∀ n ∈ g.nodes, n.id ≠ "luminous") →
      filteredGraph ViewMode.ontology g vo = ⟨[], []⟩) ∧
    (∀ c, g.nodes.find? (fun n => n.id == "luminous") = some c →
      (∀ n, n ∈ (filteredGraph ViewMode.ontology g vo).nodes ↔
        (n = c ∨ (n ∈ g.nodes ∧ n.type = NodeType.value ∧
          ∃ k ∈ vo.map (fun kv => kv.1), jsToLower k = jsToLower n.label))) ∧
      (∀ e, e ∈ (filteredGraph ViewMode.ontology g vo).edges ↔
        (e ∈ g.edges ∧ e.source = c.id ∧
          ∃ n, (n ∈ g.nodes ∧ n.type = NodeType.value ∧
            ∃ k ∈ vo.map (fun kv => kv.1), jsToLower k = jsToLower n.label) ∧
            n.id = e.target))) := by
  constructor
  · intro hno
    have hfind : g.nodes.find? (fun n => n.id == "luminous") = none := by
      rw [List.find?_eq_none]
      intro n hn
      simp [hno n hn]
    simp only [filteredGraph, hfind]
  · intro c hc
    constructor
    · intro n
      simp only [filteredGraph, hc]
      rw [List.mem_cons, valueNodes_filter_mem]
    · intro e
      simp only [filteredGraph, hc]
      rw [List.mem_filter, Bool.and_eq_true, beq_iff_eq, List.elem_iff,
        List.mem_map]
      constructor
      · rintro ⟨hmem, hsrc, n, hn, hid⟩
        exact ⟨hmem, hsrc, n, (valueNodes_filter_mem g vo n).mp hn, hid⟩
      · rintro ⟨hmem, hsrc, n, hn, hid⟩
        exact ⟨hmem, hsrc, n, (valueNodes_filter_mem g vo n).mpr hn, hid⟩

/-- Witness for C9 on a concrete graph: the central node, one matching
value node (matching the key `"Care"` case-insensitively), and the edge
between them survive the ontology filter; an edge to a non-value node
does not. -/
theorem filteredGraph_ontology_spec_witness :
    ((⟨"v1", "care", NodeType.value⟩ : GraphNode) ∈
      (filteredGraph ViewMode.ontology
        ⟨[⟨"luminous", "Luminous", NodeType.concept⟩,
          ⟨"v1", "care", NodeType.value⟩,
          ⟨"g1", "growth", NodeType.goal⟩],
          [⟨"e1", "luminous", "v1", "values", none⟩,
           ⟨"e2", "luminous", "g1", "wants", none⟩]⟩
        [("Care", (0.9 : ℝ))]).nodes) ∧
    ((⟨"e1", "luminous", "v1", "values", none⟩ : GraphEdge) ∈
      (filteredGraph ViewMode.ontology
        ⟨[⟨"luminous", "Luminous", NodeType.concept⟩,
          ⟨"v1", "care", NodeType.value⟩,
          ⟨"g1", "growth", NodeType.goal⟩],
          [⟨"e1", "luminous", "v1", "values", none⟩,
           ⟨"e2", "luminous", "g1", "wants", none⟩]⟩
        [("Care", (0.9 : ℝ))]).edges) ∧
    ((⟨"e2", "luminous", "g1", "wants", none⟩ : GraphEdge) ∉
      (filteredGraph ViewMode.ontology
        ⟨[⟨"luminous", "Luminous", NodeType.concept⟩,
          ⟨"v1", "care", NodeType.value⟩,
          ⟨"g1", "growth", NodeType.goal⟩],
          [⟨"e1", "luminous", "v1", "values", none⟩,
           ⟨"e2", "luminous", "g1", "wants", none⟩]⟩
        [("Care", (0.9 : ℝ))]).edges) := by
  have h := (filteredGraph_ontology_spec
    ⟨[⟨"luminous", "Luminous", NodeType.concept⟩,
      ⟨"v1", "care", NodeType.value⟩,
      ⟨"g1", "growth", NodeType.goal⟩],
      [⟨"e1", "luminous", "v1", "values", none⟩,
       ⟨"e2", "luminous", "g1", "wants", none⟩]⟩
    [("Care", (0.9 : ℝ))]).2
    ⟨"luminous", "Luminous", NodeType.concept⟩ rfl
  refine ⟨(h.1 _).mpr ?_, (h.2 _).mpr ?_, fun hmem => ?_⟩
  · refine Or.inr ⟨by simp, rfl, "Care", by simp, by decide⟩
  · refine ⟨by simp, rfl, ⟨"v1", "care", NodeType.value⟩,
      ⟨by simp, rfl, "Care", by simp, by decide⟩, rfl⟩
  · obtain ⟨-, -, n, ⟨hmem', ht, -⟩, hid⟩ := (h.2 _).mp hmem
    have : n = ⟨"g1", "growth", NodeType.goal⟩ ∨
        n = ⟨"luminous", "Luminous", NodeType.concept⟩ ∨
        n = ⟨"v1", "care", NodeType.value⟩ := by
      simp only [List.mem_cons, List.not_mem_nil, or_false] at hmem'
      tauto
    rcases this with rfl | rfl | rfl
    · cases ht
    · cases ht
    · exact absurd hid (by decide)

/-! ### Search-highlight and visual-state theorems -/

/-- C3: with any non-empty query in the full view, the highlight useMemo
does not produce the matched/expanded sets — its `return` statement reads
the destructured `highlightedNodeIds`/`highlightedEdgeIds` bindings inside
their temporal dead zone, so evaluation throws a `ReferenceError` instead
of completing.  Evaluated here at the failing input `searchTerm = "a"` on
a one-node graph. -/
theorem highlightMemo_throws :
    highlightMemo "a" ViewMode.full
      ⟨[⟨"n1", "Alpha", NodeType.concept⟩],
        [⟨"e1", "n1", "n1", "self", none⟩]⟩ =
      Except.error "ReferenceError" := by
  unfold highlightMemo
  rw [if_neg]
  rintro (h | h)
  · exact absurd h (by decide)
  · cases h

/-- C10 counterexample: in ontology view with a residual non-empty query
(typed in full view; the input box disappears but the state persists),
the highlight sets are empty, so `searchTerm.trim() && !has(id)` is truthy
for every node and edge — everything renders dimmed — and an ontology
value node renders at radius `6 + 0.9·10 = 15`, not the default 7. -/
theorem residual_query_dims_everything :
    highlightMemo "x" ViewMode.ontology
        ⟨[⟨"v1", "care", NodeType.value⟩], []⟩ = Except.ok (∅, ∅) ∧
    isDimmedNode "x" ∅ "v1" = true ∧
    isDimmedEdge "x" ∅ "e1" = true ∧
    getNodeRadius ViewMode.ontology [("care", (0.9 : ℝ))] ∅
      ⟨"v1", "care", NodeType.value⟩ = 15 ∧
    (15 : ℝ) ≠ 7 := by
  have hsc : lookupScore [("care", (0.9 : ℝ))] "care" = 0.9 := by
    unfold lookupScore
    rw [voLookup, if_pos rfl]
  refine ⟨?_, by decide, by decide, ?_, by norm_num⟩
  · unfold highlightMemo
    rw [if_pos (Or.inr rfl)]
  · unfold getNodeRadius
    rw [if_pos ⟨rfl, rfl⟩, hsc]
    norm_num

/-- C10 amended: an empty or whitespace-only query (or ontology view)
yields empty highlight sets; an empty/whitespace query dims nothing, and
in the full view every node with empty highlight sets renders at the
default radius 7; but in ontology view a residual non-empty query dims
every node and edge (the sets are empty), and ontology value nodes use
the importance-based radius rather than the default. -/
theorem emptyQuery_spec (s : String) (view : ViewMode) (g : KnowledgeGraph) :
    (jsTrim s = "" ∨ view = ViewMode.ontology →
      highlightMemo s view g = Except.ok (∅, ∅)) ∧
    (jsTrim s = "" → ∀ (hl : Finset String) (id : String),
      isDimmedNode s hl id = false ∧ isDimmedEdge s hl id = false) ∧
    (∀ (vo : List (String × ℝ)) (n : GraphNode),
      getNodeRadius ViewMode.full vo (∅ : Finset String) n = 7) ∧
    (jsTrim s ≠ "" → ∀ id : String,
      isDimmedNode s (∅ : Finset String) id = true ∧
      isDimmedEdge s (∅ : Finset String) id = true) := by
  refine ⟨?_, ?_, ?_, ?_⟩
  · intro hcond
    unfold highlightMemo
    rw [if_pos hcond]
  · intro h hl id
    constructor
    · simp [isDimmedNode, h]
    · simp [isDimmedEdge, h]
  · intro vo n
    unfold getNodeRadius
    rw [if_neg (by rintro ⟨h, -⟩; cases h),
      if_neg (Finset.not_mem_empty n.id)]
  · intro h id
    constructor
    · simp [isDimmedNode, h]
    · simp [isDimmedEdge, h]

/-- Witness for the amended C10 statement: empty query dims nothing and
gives the default radius; the residual query `"q"` dims. -/
theorem emptyQuery_spec_witness :
    highlightMemo "" ViewMode.full ⟨[], []⟩ = Except.ok (∅, ∅) ∧
    isDimmedNode "" {"z"} "n1" = false ∧
    getNodeRadius ViewMode.full [] (∅ : Finset String)
      ⟨"n1", "x", NodeType.tool⟩ = 7 ∧
    isDimmedNode "q" ∅ "n1" = true := by
  have h := emptyQuery_spec "" ViewMode.full ⟨[], []⟩
  have h2 := emptyQuery_spec "q" ViewMode.full ⟨[], []⟩
  exact ⟨h.1 (Or.inl (by decide)), (h.2.1 (by decide) {"z"} "n1").1,
    h.2.2.1 [] ⟨"n1", "x", NodeType.tool⟩, (h2.2.2.2 (by decide) "n1").1⟩

/-- C8 counterexample: no clamping happens at any of the three cited use
sites.  An importance of 2 gives node radius `6 + 2·10 = 26` (clamping to
`[0,1]` would give 16) and a negative radial radius; a weight of `-1`
gives stroke width `0.5 + (-1) = -0.5` (clamping would give `0.5`). -/
theorem clamping_absent :
    getNodeRadius ViewMode.ontology [("x", (2 : ℝ))] ∅
      ⟨"n", "x", NodeType.value⟩ = 26 ∧
    (26 : ℝ) ≠ 6 + min 1 (max 0 (2 : ℝ)) * 10 ∧
    edgeStrokeWidth ⟨"e", "a", "b", "rel", some (-1)⟩ = -(1 / 2) ∧
    (-(1 / 2) : ℝ) ≠ 0.5 + max 0 (-1 : ℝ) ∧
    min (100 : ℝ) 100 / 2.5 * (1.1 - lookupScore [("x", (2 : ℝ))] "x") < 0 := by
  have hsc : lookupScore [("x", (2 : ℝ))] "x" = 2 := by
    unfold lookupScore
    rw [voLookup, if_pos rfl]
  refine ⟨?_, by norm_num, ?_, by norm_num, ?_⟩
  · unfold getNodeRadius
    rw [if_pos ⟨rfl, rfl⟩, hsc]
    norm_num
  · show (0.5 : ℝ) + (if (-1 : ℝ) = 0 then 0.5 else (-1)) = -(1 / 2)
    rw [if_neg (by norm_num : ¬(-1 : ℝ) = 0)]
    norm_num
  · rw [hsc]
    norm_num

/-- C8 amended: out-of-range external inputs are not clamped — the raw
importance feeds the node radius `6 + score·10` and makes the radial
radius negative once the score exceeds 1.1, and a negative weight feeds
the stroke width `0.5 + weight` directly (only a missing or exactly-zero
weight falls back to `0.5`); the graph update is still consumed, never
rejected. -/
theorem no_clamp_spec (vo : List (String × ℝ)) (n : GraphNode) (s : ℝ)
    (hn : n.type = NodeType.value) (hs : lookupScore vo n.label = s) :
    getNodeRadius ViewMode.ontology vo ∅ n = 6 + s * 10 ∧
    (∀ w h : ℝ, 1.1 < s → 0 < min w h →
      min w h / 2.5 * (1.1 - s) < 0) ∧
    (∀ (e : GraphEdge) (wt : ℝ), e.weight = some wt → wt ≠ 0 →
      edgeStrokeWidth e = 0.5 + wt ∧ (wt < 0 → edgeStrokeWidth e < 0.5)) := by
  refine ⟨?_, ?_, ?_⟩
  · unfold getNodeRadius
    rw [if_pos ⟨rfl, hn⟩, hs]
  · intro w h hls hmin
    have h1 : (1.1 : ℝ) - s < 0 := by linarith
    have h2 : (0 : ℝ) < min w h / 2.5 := div_pos hmin (by norm_num)
    exact mul_neg_of_pos_of_neg h2 h1
  · intro e wt hw hwt
    have hE : edgeStrokeWidth e = 0.5 + wt := by
      unfold edgeStrokeWidth
      rw [hw]
      show (0.5 : ℝ) + (if wt = 0 then 0.5 else wt) = 0.5 + wt
      rw [if_neg hwt]
    exact ⟨hE, fun hlt => by rw [hE]; linarith⟩

/-- Witness for the amended C8 statement at importance 2 and weight
`-1`. -/
theorem no_clamp_spec_witness :
    getNodeRadius ViewMode.ontology [("x", (2 : ℝ))] ∅
      ⟨"n", "x", NodeType.value⟩ = 6 + 2 * 10 ∧
    edgeStrokeWidth ⟨"e", "a", "b", "rel", some (-1)⟩ = 0.5 + (-1) := by
  have h := no_clamp_spec [("x", (2 : ℝ))] ⟨"n", "x", NodeType.value⟩ 2 rfl
    (by unfold lookupScore; rw [voLookup, if_pos rfl])
  exact ⟨h.1, (h.2.2 ⟨"e", "a", "b", "rel", some (-1)⟩ (-1) rfl
    (by norm_num)).1⟩

end KGV
